import Mathlib

/-!
# Verification of the file-organizer engine

A shallow embedding of the core of `Organizador.py`: the matcher
(`get_matched_files`), the collision-free destination namer (`_unique_dest`),
the move executor (`move_files`), the undo ledger (`save_undo_record` /
`undo_last`) and the GUI worker that persists the undo record after a real
execution.

The filesystem is modelled as the set of existing file paths together with
the set of existing directory paths; paths are plain strings joined with
`"/"`, exactly as the Python code manipulates them via `pathlib`.
Environmental failures of the move primitive (permissions, cross-device
errors, vanished files) are modelled by an oracle `String → Option String`
giving, for a path being moved, the error message of the exception raised
while moving it (`none` meaning the move succeeds when the path exists).
-/

namespace Organizador

/-! ## Decimal representation: `Nat.repr` is injective

`_unique_dest` builds candidate names `"{base} ({n}){ext}"`; distinctness of
these candidates (needed to know the probe loop terminates) reduces to
injectivity of the decimal rendering of `n`, proved here by decoding. -/

/-- Numeric value of a decimal digit character. -/
def digitVal (c : Char) : Nat := c.toNat - 48

/-- Decode a most-significant-digit-first list of decimal digit characters. -/
def decodeDigits (l : List Char) : Nat := l.foldl (fun a c => 10 * a + digitVal c) 0

theorem digitVal_digitChar : ∀ d : Fin 10, digitVal (Nat.digitChar d.val) = d.val := by
  decide

theorem toDigitsCore_acc : ∀ (fuel n : Nat) (ds : List Char), n < fuel →
    Nat.toDigitsCore 10 fuel n ds = Nat.toDigitsCore 10 fuel n [] ++ ds := by
  intro fuel
  induction fuel with
  | zero => intro n ds h; exact absurd h (Nat.not_lt_zero n)
  | succ fuel ih =>
    intro n ds h
    simp only [Nat.toDigitsCore]
    by_cases h10 : n / 10 = 0
    · simp [h10]
    · have hlt : n / 10 < fuel := by
        have h1 : n / 10 < n := Nat.div_lt_self (Nat.pos_of_ne_zero (by
          intro hn; exact h10 (by simp [hn]))) (by decide)
        exact Nat.lt_of_lt_of_le h1 (Nat.lt_succ_iff.mp h)
      simp only [h10, if_false]
      rw [ih (n / 10) (Nat.digitChar (n % 10) :: ds) hlt,
        ih (n / 10) [Nat.digitChar (n % 10)] hlt, List.append_assoc]
      rfl

theorem decodeDigits_singleton (c : Char) : decodeDigits [c] = digitVal c := by
  simp [decodeDigits]

theorem decodeDigits_append_singleton (l : List Char) (c : Char) :
    decodeDigits (l ++ [c]) = 10 * decodeDigits l + digitVal c := by
  simp [decodeDigits, List.foldl_append]

theorem digitVal_digitChar_mod (n : Nat) : digitVal (Nat.digitChar (n % 10)) = n % 10 :=
  digitVal_digitChar ⟨n % 10, Nat.mod_lt _ (by decide)⟩

theorem decode_toDigitsCore : ∀ (fuel n : Nat), n < fuel →
    decodeDigits (Nat.toDigitsCore 10 fuel n []) = n := by
  intro fuel
  induction fuel with
  | zero => intro n h; exact absurd h (Nat.not_lt_zero n)
  | succ fuel ih =>
    intro n h
    simp only [Nat.toDigitsCore]
    by_cases h10 : n / 10 = 0
    · have hmod := Nat.div_add_mod n 10
      simp only [h10, if_true, decodeDigits_singleton, digitVal_digitChar_mod]
      omega
    · have hlt : n / 10 < fuel := by
        have h1 : n / 10 < n :=
          Nat.div_lt_self (Nat.pos_of_ne_zero (fun hn => h10 (by simp [hn]))) (by decide)
        exact Nat.lt_of_lt_of_le h1 (Nat.lt_succ_iff.mp h)
      have hmod := Nat.div_add_mod n 10
      simp only [h10, if_false]
      rw [toDigitsCore_acc fuel (n / 10) [Nat.digitChar (n % 10)] hlt,
        decodeDigits_append_singleton, ih (n / 10) hlt, digitVal_digitChar_mod]
      omega

theorem decode_toDigits (n : Nat) : decodeDigits (Nat.toDigits 10 n) = n :=
  decode_toDigitsCore (n + 1) n (Nat.lt_succ_self n)

theorem natRepr_injective : Function.Injective Nat.repr := by
  intro m n h
  have hd : (Nat.repr m).data = (Nat.repr n).data := by rw [h]
  have hm : (Nat.repr m).data = Nat.toDigits 10 m := rfl
  have hn : (Nat.repr n).data = Nat.toDigits 10 n := rfl
  have : Nat.toDigits 10 m = Nat.toDigits 10 n := by rw [← hm, ← hn, hd]
  calc m = decodeDigits (Nat.toDigits 10 m) := (decode_toDigits m).symm
    _ = decodeDigits (Nat.toDigits 10 n) := by rw [this]
    _ = n := decode_toDigits n

/-! ## Path strings

Paths are plain strings joined with `"/"`, mirroring the `str`/`pathlib`
round-trips done by the Python code.  `splitPath` is `Path(s).parent` /
`Path(s).name`, `splitExt` is `Path(s).stem` / `Path(s).suffix`. -/

/-- `Path(s).parent` and `Path(s).name`: split a path string at its last
slash.  For slash-free strings `pathlib` reports parent `"."` and the whole
string as the name. -/
def splitPath (s : String) : String × String :=
  let r := s.data.reverse
  let nameRev := r.takeWhile (fun c => c ≠ '/')
  match r.dropWhile (fun c => c ≠ '/') with
  | [] => (".", s)
  | _ :: parentRev => (List.asString parentRev.reverse, List.asString nameRev.reverse)

/-- `Path(name).stem` and `Path(name).suffix` for a bare filename, following
`pathlib`: the suffix starts at the last dot provided that dot is neither the
first nor the last character; otherwise the suffix is empty. -/
def splitExt (name : String) : String × String :=
  let r := name.data.reverse
  let afterRev := r.takeWhile (fun c => c ≠ '.')
  match r.dropWhile (fun c => c ≠ '.') with
  | [] => (name, "")
  | _ :: beforeRev =>
    if beforeRev = [] then (name, "")
    else if afterRev = [] then (name, "")
    else (List.asString beforeRev.reverse, List.asString ('.' :: afterRev.reverse))

/-- A path string that cleanly decomposes as `dir ++ "/" ++ name` with a
nonempty, slash-free final component. -/
def WfPath (s : String) : Prop :=
  ∃ d n : String, s = d ++ "/" ++ n ∧ n ≠ "" ∧ '/' ∉ n.data

theorem takeWhile_append_stop {p : Char → Bool} :
    ∀ (l₁ : List Char) (x : Char) (l₂ : List Char), (∀ a ∈ l₁, p a = true) → p x = false →
    ((l₁ ++ x :: l₂).takeWhile p = l₁ ∧ (l₁ ++ x :: l₂).dropWhile p = x :: l₂) := by
  intro l₁
  induction l₁ with
  | nil => intro x l₂ _ hx; simp [List.takeWhile, List.dropWhile, hx]
  | cons a l ih =>
    intro x l₂ hall hx
    have ha : p a = true := hall a (List.mem_cons_self a l)
    have := ih x l₂ (fun b hb => hall b (List.mem_cons_of_mem a hb)) hx
    simp [List.takeWhile, List.dropWhile, ha, this.1, this.2]

theorem splitPath_join (d n : String) (hs : '/' ∉ n.data) :
    splitPath (d ++ "/" ++ n) = (d, n) := by
  have hdata : (d ++ "/" ++ n).data = d.data ++ '/' :: n.data := by
    simp [String.data_append]
  have hrev : (d ++ "/" ++ n).data.reverse = n.data.reverse ++ '/' :: d.data.reverse := by
    rw [hdata, List.reverse_append]
    simp
  have hall : ∀ a ∈ n.data.reverse, (fun c => decide (c ≠ '/')) a = true := by
    intro a ha
    simp only [decide_eq_true_eq, ne_eq]
    intro h
    exact hs (h ▸ List.mem_reverse.mp ha)
  have hx : (fun c => decide (c ≠ '/')) '/' = false := by simp
  have hsplit := takeWhile_append_stop n.data.reverse '/' d.data.reverse hall hx
  unfold splitPath
  simp only [hrev, hsplit.1, hsplit.2, List.reverse_reverse]
  rfl

/-! ## Filesystem model -/

/-- The filesystem: the existing regular-file paths and directory paths.
The undo ledger (`undo_record.json`) is kept in `AppState` below, not here,
since the engine manipulates it only through `save_undo_record` /
`load_undo_record` / deletion. -/
structure FS where
  files : List String
  dirs : List String
deriving DecidableEq

/-- `Path(p).exists()`. -/
def pathExists (fs : FS) (p : String) : Bool :=
  fs.files.contains p || fs.dirs.contains p

theorem pathExists_iff {fs : FS} {p : String} :
    pathExists fs p = true ↔ p ∈ fs.files ∨ p ∈ fs.dirs := by
  simp [pathExists, List.contains, List.elem_iff]

/-- Re-root a path that lies under a moved directory: when a directory is
moved from `src` to `dst`, an entry `src ++ "/" ++ rest` becomes
`dst ++ "/" ++ rest`. -/
def rerootPath (src dst p : String) : String :=
  if (src ++ "/").data.isPrefixOf p.data then
    dst ++ "/" ++ List.asString (p.data.drop (src.data.length + 1))
  else p

/-- `shutil.move(src, dst)` where `dst` does not currently exist: a file is
renamed to `dst`; a directory is renamed to `dst` together with everything
under it.  Moving a nonexistent path raises in Python; callers model that
through the failure oracle or an existence check, so here it is the
identity. -/
def shutilMove (fs : FS) (src dst : String) : FS :=
  if fs.files.contains src then
    { fs with files := dst :: fs.files.erase src }
  else if fs.dirs.contains src then
    { files := fs.files.map (rerootPath src dst),
      dirs := dst :: (fs.dirs.erase src).map (rerootPath src dst) }
  else fs

/-! ## `_unique_dest`

The Python probe loop `while True: candidate = dest_dir / f"{base} ({counter}){ext}" ...`
is embedded with explicit fuel; `fs.files.length + fs.dirs.length + 1` probes
always suffice because the candidates are pairwise distinct. -/

/-- The candidate filename `f"{base} ({counter}){ext}"`. -/
def candName (base ext : String) (counter : Nat) : String :=
  base ++ " (" ++ Nat.repr counter ++ ")" ++ ext

/-- One fully joined candidate path. -/
def candPath (dest_dir base ext : String) (counter : Nat) : String :=
  dest_dir ++ "/" ++ candName base ext counter

/-- The `while True` probe loop of `_unique_dest`. -/
def uniqueDestFrom (fs : FS) (dest_dir base ext : String) : Nat → Nat → String
  | 0, counter => candPath dest_dir base ext counter
  | fuel + 1, counter =>
    let candidate := candPath dest_dir base ext counter
    if pathExists fs candidate then uniqueDestFrom fs dest_dir base ext fuel (counter + 1)
    else candidate

/-- `_unique_dest(dest_dir, filename)`. -/
def unique_dest (fs : FS) (dest_dir filename : String) : String :=
  let dest_path := dest_dir ++ "/" ++ filename
  if pathExists fs dest_path then
    let se := splitExt filename
    uniqueDestFrom fs dest_dir se.1 se.2 (fs.files.length + fs.dirs.length + 1) 1
  else dest_path

theorem candPath_injective (dest_dir base ext : String) {m n : Nat}
    (h : candPath dest_dir base ext m = candPath dest_dir base ext n) : m = n := by
  apply natRepr_injective
  apply String.ext
  have h' := congrArg String.data h
  simp only [candPath, candName, String.data_append, List.append_assoc] at h'
  have h1 := List.append_cancel_left h'
  have h2 := List.append_cancel_left h1
  have h3 := List.append_cancel_left h2
  have h4 := List.append_cancel_left h3
  exact List.append_cancel_right h4

theorem uniqueDestFrom_spec (fs : FS) (dest_dir base ext : String) :
    ∀ (fuel counter : Nat),
    (∃ i < fuel, pathExists fs (candPath dest_dir base ext (counter + i)) = false) →
    ∃ j, pathExists fs (candPath dest_dir base ext (counter + j)) = false ∧
      (∀ i < j, pathExists fs (candPath dest_dir base ext (counter + i)) = true) ∧
      uniqueDestFrom fs dest_dir base ext fuel counter =
        candPath dest_dir base ext (counter + j) := by
  intro fuel
  induction fuel with
  | zero =>
    rintro counter ⟨i, hi, _⟩
    exact absurd hi (Nat.not_lt_zero i)
  | succ fuel ih =>
    intro counter hex
    cases h0 : pathExists fs (candPath dest_dir base ext counter) with
    | false =>
      refine ⟨0, by simpa using h0, by omega, ?_⟩
      simp only [uniqueDestFrom, h0, Bool.false_eq_true, if_false, Nat.add_zero]
    | true =>
      obtain ⟨i, hi, hfree⟩ := hex
      have hi0 : i ≠ 0 := by
        rintro rfl
        rw [Nat.add_zero, h0] at hfree
        exact Bool.noConfusion hfree
      obtain ⟨i', rfl⟩ : ∃ i', i = i' + 1 := ⟨i - 1, by omega⟩
      have hex' : ∃ k < fuel,
          pathExists fs (candPath dest_dir base ext (counter + 1 + k)) = false := by
        refine ⟨i', by omega, ?_⟩
        rw [show counter + 1 + i' = counter + (i' + 1) by omega]
        exact hfree
      obtain ⟨j, hjf, hjall, hjeq⟩ := ih (counter + 1) hex'
      refine ⟨j + 1, ?_, ?_, ?_⟩
      · rw [show counter + (j + 1) = counter + 1 + j by omega]
        exact hjf
      · intro k hk
        cases k with
        | zero => simpa using h0
        | succ k =>
          have := hjall k (by omega)
          rw [show counter + (k + 1) = counter + 1 + k by omega]
          exact this
      · simp only [uniqueDestFrom, h0, if_true]
        rw [hjeq]
        congr 1
        omega

theorem exists_free_candidate (fs : FS) (dest_dir base ext : String) (counter : Nat) :
    ∃ i < fs.files.length + fs.dirs.length + 1,
      pathExists fs (candPath dest_dir base ext (counter + i)) = false := by
  by_contra hcon
  push_neg at hcon
  have hall : ∀ i < fs.files.length + fs.dirs.length + 1,
      candPath dest_dir base ext (counter + i) ∈ fs.files ++ fs.dirs := by
    intro i hi
    have hne := hcon i hi
    have ht : pathExists fs (candPath dest_dir base ext (counter + i)) = true := by
      cases h : pathExists fs (candPath dest_dir base ext (counter + i))
      · exact absurd h hne
      · rfl
    rcases pathExists_iff.mp ht with h | h
    · exact List.mem_append.mpr (Or.inl h)
    · exact List.mem_append.mpr (Or.inr h)
  have hinj : Function.Injective (fun i : Nat => candPath dest_dir base ext (counter + i)) := by
    intro a b hab
    have := candPath_injective dest_dir base ext hab
    omega
  have hnodup : ((List.range (fs.files.length + fs.dirs.length + 1)).map
      (fun i => candPath dest_dir base ext (counter + i))).Nodup :=
    (List.nodup_range _).map hinj
  have hsub : ((List.range (fs.files.length + fs.dirs.length + 1)).map
      (fun i => candPath dest_dir base ext (counter + i))) ⊆ fs.files ++ fs.dirs := by
    intro x hx
    obtain ⟨i, hi, rfl⟩ := List.mem_map.mp hx
    exact hall i (List.mem_range.mp hi)
  have hle := (List.subperm_of_subset hnodup hsub).length_le
  simp only [List.length_map, List.length_range, List.length_append] at hle
  omega

theorem unique_dest_spec (fs : FS) (dest_dir filename : String) :
    (pathExists fs (dest_dir ++ "/" ++ filename) = false →
      unique_dest fs dest_dir filename = dest_dir ++ "/" ++ filename) ∧
    (pathExists fs (dest_dir ++ "/" ++ filename) = true →
      ∃ n, 1 ≤ n ∧
        unique_dest fs dest_dir filename =
          candPath dest_dir (splitExt filename).1 (splitExt filename).2 n ∧
        pathExists fs (candPath dest_dir (splitExt filename).1 (splitExt filename).2 n) = false ∧
        ∀ m, 1 ≤ m → m < n →
          pathExists fs (candPath dest_dir (splitExt filename).1 (splitExt filename).2 m) = true) := by
  constructor
  · intro h
    simp only [unique_dest, h, Bool.false_eq_true, if_false]
  · intro h
    obtain ⟨j, hjf, hjall, hjeq⟩ := uniqueDestFrom_spec fs dest_dir
      (splitExt filename).1 (splitExt filename).2
      (fs.files.length + fs.dirs.length + 1) 1
      (exists_free_candidate fs dest_dir (splitExt filename).1 (splitExt filename).2 1)
    refine ⟨1 + j, by omega, ?_, hjf, ?_⟩
    · simp only [unique_dest, h, if_true]
      exact hjeq
    · intro m hm1 hmj
      have := hjall (m - 1) (by omega)
      rw [show 1 + (m - 1) = m by omega] at this
      exact this

theorem unique_dest_fresh (fs : FS) (dest_dir filename : String) :
    pathExists fs (unique_dest fs dest_dir filename) = false := by
  cases h : pathExists fs (dest_dir ++ "/" ++ filename) with
  | false => rw [(unique_dest_spec fs dest_dir filename).1 h]; exact h
  | true =>
    obtain ⟨n, _, heq, hfree, _⟩ := (unique_dest_spec fs dest_dir filename).2 h
    rw [heq]
    exact hfree

/-! ## Move executor and undo ledger -/

/-- The `action` tag recorded in an outcome dict: `"moved"`, `"would_move"`,
`"skipped_not_found"`, `"restored"` or `f"error: {e}"` (the exception message
is carried explicitly). -/
inductive Action where
  | moved
  | would_move
  | skipped_not_found
  | restored
  | error (msg : String)
deriving DecidableEq

/-- One outcome dict `{"source": ..., "dest": ..., "action": ...}`, the unit
both of `move_files` results and of the persisted undo record. -/
structure Operation where
  source : String
  dest : String
  action : Action
deriving DecidableEq

/-- The persisted `undo_record.json`. -/
structure UndoRecord where
  timestamp : String
  operations : List Operation
deriving DecidableEq

/-- Process state seen by the engine: the filesystem plus the single-slot
undo ledger (`none` = `UNDO_FILE` absent). -/
structure AppState where
  fs : FS
  ledger : Option UndoRecord
deriving DecidableEq

/-- Failure oracle under which every move primitive succeeds. -/
def noFail : String → Option String := fun _ => none

/-- The body of the `for src in files` loop of `move_files`: one attempt.
`moveFail src = some msg` models `shutil.move` raising with message `msg`;
a nonexistent source also raises (`FileNotFoundError`).  On an exception the
recorded dest is `str(destination)` — the destination directory, not the
computed candidate path (line 137 of the source). -/
def moveStep (fs : FS) (destination : String) (dry_run : Bool)
    (moveFail : String → Option String) (src : String) : Operation × FS :=
  let dest_path := unique_dest fs destination (splitPath src).2
  if dry_run then
    ({ source := src, dest := dest_path, action := .would_move }, fs)
  else
    match moveFail src with
    | some msg => ({ source := src, dest := destination, action := .error msg }, fs)
    | none =>
      if pathExists fs src then
        ({ source := src, dest := dest_path, action := .moved }, shutilMove fs src dest_path)
      else
        ({ source := src, dest := destination,
           action := .error "No such file or directory" }, fs)

/-- The `for src in files` loop: outcomes in input order, the evolving
filesystem, and the `(completed, total)` progress events in emission order. -/
def moveLoop (destination : String) (dry_run : Bool) (moveFail : String → Option String)
    (total : Nat) : List String → FS → Nat → List Operation × FS × List (Nat × Nat)
  | [], fs, _ => ([], fs, [])
  | src :: rest, fs, completed =>
    let step := moveStep fs destination dry_run moveFail src
    let r := moveLoop destination dry_run moveFail total rest step.2 (completed + 1)
    (step.1 :: r.1, r.2.1, (completed + 1, total) :: r.2.2)

/-- `dest_dir.mkdir(parents=True, exist_ok=True)`: ensures the destination
directory exists.  Individual parents are not tracked; the destination
itself is recorded. -/
def mkdirAdd (fs : FS) (destination : String) : FS :=
  { fs with dirs := if fs.dirs.contains destination then fs.dirs else destination :: fs.dirs }

/-- `move_files(files, destination, dry_run, progress_callback)`.
`mkdirFail = true` models `mkdir` raising, which is logged and re-raised:
the call fails before any file is touched and before any progress event.
The result is the returned outcome list (or the propagated exception), the
filesystem afterwards, and the progress events. -/
def move_files (fs : FS) (files : List String) (destination : String) (dry_run : Bool)
    (mkdirFail : Bool) (moveFail : String → Option String) :
    Except String (List Operation) × FS × List (Nat × Nat) :=
  if mkdirFail then (.error "cannot create destination", fs, [])
  else
    let fs1 := mkdirAdd fs destination
    let r := moveLoop destination dry_run moveFail files.length files fs1 0
    (.ok r.1, r.2.1, r.2.2)

/-- The GUI worker around `move_files` (lines 733-748): runs the executor,
then — only when this was a real run and at least one outcome is `moved` —
persists the batch (all outcome entries, fields copied unchanged) via
`save_undo_record`, overwriting any previous ledger slot. -/
def run_move_worker (st : AppState) (matched : List String) (destination : String)
    (dry_run : Bool) (mkdirFail : Bool) (moveFail : String → Option String)
    (timestamp : String) :
    Except String (List Operation) × AppState × List (Nat × Nat) :=
  match move_files st.fs matched destination dry_run mkdirFail moveFail with
  | (.error e, fs', evs) => (.error e, { st with fs := fs' }, evs)
  | (.ok results, fs', evs) =>
    let record : UndoRecord := { timestamp := timestamp, operations := results }
    let ledger' :=
      if !dry_run && results.any (fun r => r.action == .moved) then some record
      else st.ledger
    (.ok results, { fs := fs', ledger := ledger' }, evs)

/-- The body of the `for op in reversed(ops)` loop of `undo_last`: treats the
recorded `dest` as the current location and the recorded `source` as the
restoration target.  On an exception the recorded result dest is the
restoration target (line 190). -/
def undoStep (fs : FS) (moveFail : String → Option String) (op : Operation) :
    Operation × FS :=
  let src := op.dest
  let dst := op.source
  if pathExists fs src then
    match moveFail src with
    | some msg => ({ source := src, dest := dst, action := .error msg }, fs)
    | none =>
      let sp := splitPath dst
      let final_dest := unique_dest fs sp.1 sp.2
      ({ source := src, dest := final_dest, action := .restored }, shutilMove fs src final_dest)
  else
    ({ source := src, dest := dst, action := .skipped_not_found }, fs)

/-- The undo loop over an operation list (already reversed by the caller). -/
def undoLoop (moveFail : String → Option String) (total : Nat) :
    List Operation → FS → Nat → List Operation × FS × List (Nat × Nat)
  | [], fs, _ => ([], fs, [])
  | op :: rest, fs, completed =>
    let step := undoStep fs moveFail op
    let r := undoLoop moveFail total rest step.2 (completed + 1)
    (step.1 :: r.1, r.2.1, (completed + 1, total) :: r.2.2)

/-- Result dict of `undo_last`. -/
structure UndoResult where
  ok : Bool
  err : Option String
  results : List Operation
deriving DecidableEq

/-- `undo_last(progress_callback)`: loads the ledger (absent ledger is a
non-ok result), replays the recorded operations in reverse order, then
deletes the ledger unconditionally. -/
def undo_last (st : AppState) (moveFail : String → Option String) :
    UndoResult × AppState × List (Nat × Nat) :=
  match st.ledger with
  | none =>
    ({ ok := false, err := some "Nenhum registro de undo encontrado.", results := [] }, st, [])
  | some record =>
    let ops := record.operations
    let r := undoLoop moveFail ops.length ops.reverse st.fs 0
    ({ ok := true, err := none, results := r.1 }, { fs := r.2.1, ledger := none }, r.2.2)

/-! ## Matcher -/

/-- Python `str.lower()` applied characterwise (`k.lower()`, `p.name.lower()`). -/
def strLower (s : String) : String := List.asString (s.data.map Char.toLower)

/-- Python substring containment `needle in hay`. -/
def hasSub (needle : List Char) : List Char → Bool
  | [] => needle.isEmpty
  | c :: rest => needle.isPrefixOf (c :: rest) || hasSub needle rest

/-- One entry of `source.iterdir()`: basename, whether it is a subdirectory,
and its modification time (`none` models `p.stat()` raising, the skipped
unreadable-metadata case). -/
structure DirEntry where
  name : String
  isDir : Bool
  mtime : Option Int
deriving DecidableEq

/-- An organization rule as seen by `get_matched_files`: whether `source` is
an existing directory, its listing, and the rule fields.  The date fields
hold the values `_parse_date` produces (a timestamp at 00:00:00 of the day,
in seconds; `none` for an absent or empty field). -/
structure Org where
  source_is_dir : Bool
  entries : List DirEntry
  keywords : List String
  date_filter_enabled : Bool
  start_date : Option Int
  end_date : Option Int
deriving DecidableEq

/-- The date-window test of the scan loop: skip when `start and mtime < start`
or `end and mtime > end`, with `end` first pushed to 23:59:59 of its day
(`+ 86399` seconds). -/
def dateOk (org : Org) (mtime : Int) : Bool :=
  let start := if org.date_filter_enabled then org.start_date else none
  let stop := (if org.date_filter_enabled then org.end_date else none).map (· + 86399)
  !(match start with | some s => decide (mtime < s) | none => false) &&
    !(match stop with | some e => decide (e < mtime) | none => false)

/-- The per-entry test of the scan loop of `get_matched_files`: directories
and entries with unreadable metadata are skipped, then the date window and
the keyword loop (`if kw and kw in name: ...; break`) decide membership. -/
def entryMatches (org : Org) (p : DirEntry) : Bool :=
  if p.isDir then false
  else match p.mtime with
    | none => false
    | some t =>
      dateOk org t &&
        (org.keywords.map strLower).any
          (fun kw => (kw != "") && hasSub kw.data (strLower p.name).data)

/-- `get_matched_files(org)`. -/
def get_matched_files (org : Org) : List DirEntry :=
  if org.source_is_dir then org.entries.filter (entryMatches org) else []

/-! ## Proof-support functions -/

/-- State reached by the undo loop, ignoring results and progress events. -/
def undoFS (moveFail : String → Option String) : List Operation → FS → FS
  | [], fs => fs
  | op :: rest, fs => undoFS moveFail rest (undoStep fs moveFail op).2

theorem undoLoop_fs_eq (moveFail : String → Option String) (total : Nat) :
    ∀ (ops : List Operation) (fs : FS) (completed : Nat),
    (undoLoop moveFail total ops fs completed).2.1 = undoFS moveFail ops fs := by
  intro ops
  induction ops with
  | nil => intro fs completed; rfl
  | cons op rest ih => intro fs completed; simp only [undoLoop, undoFS, ih]

theorem undoFS_append (moveFail : String → Option String) :
    ∀ (l₁ l₂ : List Operation) (fs : FS),
    undoFS moveFail (l₁ ++ l₂) fs = undoFS moveFail l₂ (undoFS moveFail l₁ fs) := by
  intro l₁
  induction l₁ with
  | nil => intro l₂ fs; rfl
  | cons op rest ih =>
    intro l₂ fs
    simp only [List.cons_append, undoFS]
    exact ih l₂ _

/-! ## General lemmas about the move loop -/

theorem moveLoop_dry_run (destination : String) (moveFail : String → Option String)
    (total : Nat) :
    ∀ (files : List String) (fs : FS) (completed : Nat),
    (moveLoop destination true moveFail total files fs completed).2.1 = fs ∧
    ∀ r ∈ (moveLoop destination true moveFail total files fs completed).1,
      r.action = .would_move := by
  intro files
  induction files with
  | nil => intro fs completed; exact ⟨rfl, by intro r hr; cases hr⟩
  | cons src rest ih =>
    intro fs completed
    have hstep : moveStep fs destination true moveFail src =
        ({ source := src, dest := unique_dest fs destination (splitPath src).2,
           action := .would_move }, fs) := rfl
    constructor
    · simp only [moveLoop, hstep]
      exact (ih fs (completed + 1)).1
    · intro r hr
      simp only [moveLoop, hstep, List.mem_cons] at hr
      rcases hr with rfl | hr
      · rfl
      · exact (ih fs (completed + 1)).2 r hr

theorem mkdirAdd_contains (fs : FS) (destination : String) :
    (mkdirAdd fs destination).dirs.contains destination = true := by
  unfold mkdirAdd
  cases h : fs.dirs.contains destination with
  | true => simp only [h, if_true]
  | false =>
    simp only [h, Bool.false_eq_true, if_false]
    simp [List.contains, List.elem_iff]

theorem mkdirAdd_of_contains (fs : FS) (destination : String)
    (h : fs.dirs.contains destination = true) : mkdirAdd fs destination = fs := by
  unfold mkdirAdd
  rw [h]
  rfl

theorem mkdirAdd_idem (fs : FS) (destination : String) :
    mkdirAdd (mkdirAdd fs destination) destination = mkdirAdd fs destination :=
  mkdirAdd_of_contains _ _ (mkdirAdd_contains fs destination)

theorem moveLoop_sources_actions (destination : String) (dry_run : Bool)
    (moveFail : String → Option String) (total : Nat) :
    ∀ (files : List String) (fs : FS) (completed : Nat),
    (moveLoop destination dry_run moveFail total files fs completed).1.length = files.length ∧
    (∀ (i : Nat) (hi : i < files.length)
       (hri : i < (moveLoop destination dry_run moveFail total files fs completed).1.length),
      ((moveLoop destination dry_run moveFail total files fs completed).1.get ⟨i, hri⟩).source =
        files.get ⟨i, hi⟩ ∧
      (dry_run = false → ∀ msg, moveFail (files.get ⟨i, hi⟩) = some msg →
        ((moveLoop destination dry_run moveFail total files fs completed).1.get ⟨i, hri⟩).action =
          .error msg)) := by
  intro files
  induction files with
  | nil =>
    intro fs completed
    exact ⟨rfl, fun i hi => absurd hi (Nat.not_lt_zero i)⟩
  | cons src rest ih =>
    intro fs completed
    constructor
    · simp only [moveLoop, List.length_cons]
      exact congrArg Nat.succ (ih (moveStep fs destination dry_run moveFail src).2
        (completed + 1)).1
    · intro i hi hri
      cases i with
      | zero =>
        have hget : (moveLoop destination dry_run moveFail total (src :: rest) fs
            completed).1.get ⟨0, hri⟩ = (moveStep fs destination dry_run moveFail src).1 := rfl
        have hgetf : (src :: rest).get ⟨0, hi⟩ = src := rfl
        rw [hget, hgetf]
        constructor
        · unfold moveStep
          cases dry_run
          · cases h : moveFail src
            · simp only [h, Bool.false_eq_true, if_false]
              cases hp : pathExists fs src <;> simp [hp]
            · simp [h]
          · simp
        · intro hdry msg hmsg
          subst hdry
          unfold moveStep
          simp [hmsg]
      | succ i =>
        have hi' : i < rest.length := Nat.lt_of_succ_lt_succ hi
        have := (ih (moveStep fs destination dry_run moveFail src).2 (completed + 1)).2 i hi'
        have hlen := (ih (moveStep fs destination dry_run moveFail src).2 (completed + 1)).1
        have hri' : i < (moveLoop destination dry_run moveFail total rest
            (moveStep fs destination dry_run moveFail src).2 (completed + 1)).1.length := by
          rw [hlen]; exact hi'
        exact this hri'

theorem contains_iff_mem {l : List String} {a : String} : l.contains a = true ↔ a ∈ l := by
  simp [List.contains, List.elem_iff]

theorem contains_false_iff {l : List String} {a : String} : l.contains a = false ↔ a ∉ l := by
  cases h : l.contains a with
  | true => simp only [Bool.true_eq_false, false_iff]; exact fun hc => hc (contains_iff_mem.mp h)
  | false =>
    simp only [true_iff]
    intro hm
    rw [contains_iff_mem.mpr hm] at h
    exact Bool.noConfusion h

theorem pathExists_false_iff {fs : FS} {p : String} :
    pathExists fs p = false ↔ p ∉ fs.files ∧ p ∉ fs.dirs := by
  unfold pathExists
  rw [Bool.or_eq_false_iff]
  rw [contains_false_iff, contains_false_iff]

/-- Undoing, in reverse order, the operations of an all-`moved` run of the
move loop brings the file set back to where it started (up to order), as
long as the inputs are well-formed paths that are not directories.  `U` is
any filesystem whose files agree, up to order, with the state the forward
loop produced. -/
theorem moveLoop_undo_aux (destination : String) (total : Nat) :
    ∀ (files : List String) (fs : FS) (completed : Nat)
      (ops : List Operation) (fs' : FS) (evs : List (Nat × Nat)),
    fs.files.Nodup →
    (∀ f ∈ files, WfPath f ∧ fs.dirs.contains f = false) →
    moveLoop destination false noFail total files fs completed = (ops, fs', evs) →
    (∀ r ∈ ops, r.action = .moved) →
    ∀ U : FS, U.files.Perm fs'.files → U.dirs = fs'.dirs →
    (undoFS noFail ops.reverse U).files.Perm fs.files ∧
    (undoFS noFail ops.reverse U).dirs = fs.dirs := by
  intro files
  induction files with
  | nil =>
    intro fs completed ops fs' evs hnd hwf hrun hmoved U hUf hUd
    obtain ⟨rfl, rfl, rfl⟩ : ([] : List Operation) = ops ∧ fs = fs' ∧ ([] : List (Nat × Nat)) = evs := by
      injection hrun with h1 h2
      injection h2 with h2 h3
      exact ⟨h1, h2, h3⟩
    exact ⟨hUf, hUd⟩
  | cons src rest ih =>
    intro fs completed ops fs' evs hnd hwf hrun hmoved U hUf hUd
    -- unpack the first loop iteration
    have hrun' : ((moveStep fs destination false noFail src).1 ::
        (moveLoop destination false noFail total rest
          (moveStep fs destination false noFail src).2 (completed + 1)).1,
        (moveLoop destination false noFail total rest
          (moveStep fs destination false noFail src).2 (completed + 1)).2.1,
        (completed + 1, total) ::
        (moveLoop destination false noFail total rest
          (moveStep fs destination false noFail src).2 (completed + 1)).2.2) =
        (ops, fs', evs) := hrun
    obtain ⟨hops, hfs', hevs⟩ : (moveStep fs destination false noFail src).1 ::
        (moveLoop destination false noFail total rest
          (moveStep fs destination false noFail src).2 (completed + 1)).1 = ops ∧
        (moveLoop destination false noFail total rest
          (moveStep fs destination false noFail src).2 (completed + 1)).2.1 = fs' ∧
        (completed + 1, total) ::
        (moveLoop destination false noFail total rest
          (moveStep fs destination false noFail src).2 (completed + 1)).2.2 = evs := by
      injection hrun' with h1 h2
      injection h2 with h2 h3
      exact ⟨h1, h2, h3⟩
    -- the first file was moved, hence it existed
    have hpe : pathExists fs src = true := by
      cases hp : pathExists fs src with
      | true => rfl
      | false =>
        have hact := hmoved (moveStep fs destination false noFail src).1
          (by rw [← hops]; exact List.mem_cons_self _ _)
        unfold moveStep at hact
        simp only [Bool.false_eq_true, if_false, noFail, hp] at hact
        exact absurd hact (by intro h; exact Action.noConfusion h)
    have hstep : moveStep fs destination false noFail src =
        ({ source := src, dest := unique_dest fs destination (splitPath src).2,
           action := .moved },
         shutilMove fs src (unique_dest fs destination (splitPath src).2)) := by
      unfold moveStep
      simp only [Bool.false_eq_true, if_false, noFail, hpe, if_true]
    set dp := unique_dest fs destination (splitPath src).2 with hdp
    have hfresh : pathExists fs dp = false := unique_dest_fresh fs destination (splitPath src).2
    have hdpf : dp ∉ fs.files := (pathExists_false_iff.mp hfresh).1
    have hdpd : dp ∉ fs.dirs := (pathExists_false_iff.mp hfresh).2
    have hsrc_dirs : fs.dirs.contains src = false := (hwf src (List.mem_cons_self _ _)).2
    have hsrc_files : src ∈ fs.files := by
      rcases pathExists_iff.mp hpe with h | h
      · exact h
      · exact absurd h (contains_false_iff.mp hsrc_dirs)
    have hmove : shutilMove fs src dp =
        { files := dp :: fs.files.erase src, dirs := fs.dirs } := by
      unfold shutilMove
      rw [contains_iff_mem.mpr hsrc_files]
      rfl
    have hnd1 : (dp :: fs.files.erase src).Nodup :=
      List.nodup_cons.mpr ⟨fun hm => hdpf (List.mem_of_mem_erase hm), hnd.erase src⟩
    -- apply the induction hypothesis to the tail
    have hrest := ih { files := dp :: fs.files.erase src, dirs := fs.dirs } (completed + 1)
      (moveLoop destination false noFail total rest
        (moveStep fs destination false noFail src).2 (completed + 1)).1
      (moveLoop destination false noFail total rest
        (moveStep fs destination false noFail src).2 (completed + 1)).2.1
      (moveLoop destination false noFail total rest
        (moveStep fs destination false noFail src).2 (completed + 1)).2.2
      hnd1
      (fun f hf => ⟨(hwf f (List.mem_cons_of_mem src hf)).1,
        (hwf f (List.mem_cons_of_mem src hf)).2⟩)
      (by rw [hstep, hmove])
      (fun r hr => hmoved r (by rw [← hops]; exact List.mem_cons_of_mem _ hr))
      U (by rw [hfs']; exact hUf) (by rw [hfs']; exact hUd)
    set V := undoFS noFail (moveLoop destination false noFail total rest
      (moveStep fs destination false noFail src).2 (completed + 1)).1.reverse U with hV
    have hVf : V.files.Perm (dp :: fs.files.erase src) := hrest.1
    have hVd : V.dirs = fs.dirs := hrest.2
    -- peel the final undo step
    have hstep1 : (moveStep fs destination false noFail src).1 =
        { source := src, dest := dp, action := .moved } := by rw [hstep]
    have hsplit : undoFS noFail ops.reverse U =
        (undoStep V noFail { source := src, dest := dp, action := .moved }).2 := by
      rw [← hops, List.reverse_cons, undoFS_append, hstep1]
      rfl
    -- compute that undo step: it moves dp back to src
    obtain ⟨d, n, hsrc_eq, hn, hns⟩ := (hwf src (List.mem_cons_self _ _)).1
    have hsp : splitPath src = (d, n) := by rw [hsrc_eq]; exact splitPath_join d n hns
    have hdpV : pathExists V dp = true := by
      unfold pathExists
      rw [contains_iff_mem.mpr (hVf.mem_iff.mpr (List.mem_cons_self _ _))]
      rfl
    have hsrcV_files : src ∉ V.files := by
      intro hm
      rcases List.mem_cons.mp (hVf.mem_iff.mp hm) with h | h
      · exact hdpf (h ▸ hsrc_files)
      · exact hnd.not_mem_erase h
    have hsrcV : pathExists V src = false := by
      rw [pathExists_false_iff]
      exact ⟨hsrcV_files, fun hm => (contains_false_iff.mp hsrc_dirs) (hVd ▸ hm)⟩
    have hud : unique_dest V d n = src := by
      rw [(unique_dest_spec V d n).1 (by rw [← hsrc_eq]; exact hsrcV), hsrc_eq]
    have hstep2 : (undoStep V noFail { source := src, dest := dp, action := .moved }).2 =
        shutilMove V dp src := by
      unfold undoStep
      simp only [hdpV, if_true, noFail, hsp, hud]
    have hmove2 : shutilMove V dp src = { files := src :: V.files.erase dp, dirs := V.dirs } := by
      unfold shutilMove
      rw [contains_iff_mem.mpr (hVf.mem_iff.mpr (List.mem_cons_self _ _))]
      rfl
    rw [hsplit, hstep2, hmove2]
    constructor
    · have p1 : V.files.erase dp |>.Perm (fs.files.erase src) := by
        have := hVf.erase dp
        rw [List.erase_cons_head] at this
        exact this
      exact ((p1.cons src).trans (List.perm_cons_erase hsrc_files).symm)
    · exact hVd

theorem undoLoop_results_sources (moveFail : String → Option String) (total : Nat) :
    ∀ (ops : List Operation) (fs : FS) (completed : Nat),
    (undoLoop moveFail total ops fs completed).1.map (fun o => o.source) =
      ops.map (fun o => o.dest) := by
  intro ops
  induction ops with
  | nil => intro fs completed; rfl
  | cons op rest ih =>
    intro fs completed
    have hsrc : (undoStep fs moveFail op).1.source = op.dest := by
      unfold undoStep
      cases h : pathExists fs op.dest with
      | false => simp [h]
      | true =>
        simp only [h, if_true]
        cases moveFail op.dest <;> simp
    simp only [undoLoop, List.map_cons, hsrc]
    rw [ih]

/-! ## The claims -/

/-- Claim C10 (confirmed): when creating the destination directory fails,
`move_files` propagates the error to the caller: the filesystem is
untouched, no outcome entry is produced, and no progress callback has been
invoked. -/
theorem move_files_mkdir_failure_aborts
    (fs : FS) (files : List String) (destination : String) (dry_run : Bool)
    (moveFail : String → Option String) :
    move_files fs files destination dry_run true moveFail =
      (.error "cannot create destination", fs, []) := rfl

/-- Claim C9 (confirmed): in a real run (destination created successfully),
an exception while moving one file is caught and recorded as an error
outcome for that file, and processing continues: the outcome list has
exactly one entry per input file, in input order. -/
theorem move_files_error_isolation
    (fs : FS) (files : List String) (destination : String)
    (moveFail : String → Option String) (results : List Operation) (fs' : FS)
    (evs : List (Nat × Nat))
    (hrun : move_files fs files destination false false moveFail = (.ok results, fs', evs)) :
    results.length = files.length ∧
    ∀ (i : Nat) (hi : i < files.length) (hri : i < results.length),
      (results.get ⟨i, hri⟩).source = files.get ⟨i, hi⟩ ∧
      ∀ msg, moveFail (files.get ⟨i, hi⟩) = some msg →
        (results.get ⟨i, hri⟩).action = .error msg := by
  have hmf : move_files fs files destination false false moveFail =
      (.ok (moveLoop destination false moveFail files.length files (mkdirAdd fs destination) 0).1,
       (moveLoop destination false moveFail files.length files (mkdirAdd fs destination) 0).2.1,
       (moveLoop destination false moveFail files.length files (mkdirAdd fs destination) 0).2.2) :=
    rfl
  rw [hmf] at hrun
  obtain ⟨h1, h2, h3⟩ : (moveLoop destination false moveFail files.length files
      (mkdirAdd fs destination) 0).1 = results ∧
      (moveLoop destination false moveFail files.length files (mkdirAdd fs destination) 0).2.1 =
        fs' ∧
      (moveLoop destination false moveFail files.length files (mkdirAdd fs destination) 0).2.2 =
        evs := by
    injection hrun with ha hb
    injection hb with hb hc
    exact ⟨Except.ok.inj ha, hb, hc⟩
  subst h1
  have hspec := moveLoop_sources_actions destination false moveFail files.length files
    (mkdirAdd fs destination) 0
  refine ⟨hspec.1, ?_⟩
  intro i hi hri
  refine ⟨(hspec.2 i hi hri).1, ?_⟩
  intro msg hmsg
  exact (hspec.2 i hi hri).2 rfl msg hmsg

/-- Claim C8 (confirmed): `undo_last` on a persisted batch processes the
recorded operations in reverse list order (each result entry's `source` is
the corresponding reversed entry's recorded `dest`), reports `ok`, and
afterwards deletes the persisted record unconditionally — however many
entries were restored, skipped or errored. -/
theorem undo_last_reverse_order_and_deletes_ledger
    (st : AppState) (moveFail : String → Option String) (record : UndoRecord)
    (hledger : st.ledger = some record) :
    (undo_last st moveFail).1.ok = true ∧
    (undo_last st moveFail).1.results.map (fun o => o.source) =
      record.operations.reverse.map (fun o => o.dest) ∧
    (undo_last st moveFail).2.1.ledger = none := by
  obtain ⟨fs, L⟩ := st
  simp only at hledger
  subst hledger
  refine ⟨rfl, ?_, rfl⟩
  exact undoLoop_results_sources moveFail record.operations.length
    record.operations.reverse fs 0

/-- Witness for C8: a concrete two-entry batch is undone in reverse order
and the ledger slot is cleared. -/
theorem undo_last_reverse_order_and_deletes_ledger_witness :
    (undo_last ⟨⟨["/d/x.txt"], ["/d"]⟩,
        some ⟨"t", [⟨"/s/x.txt", "/d/x.txt", .moved⟩, ⟨"/s/y.txt", "/d/y.txt", .moved⟩]⟩⟩
      noFail).1.ok = true ∧
    (undo_last ⟨⟨["/d/x.txt"], ["/d"]⟩,
        some ⟨"t", [⟨"/s/x.txt", "/d/x.txt", .moved⟩, ⟨"/s/y.txt", "/d/y.txt", .moved⟩]⟩⟩
      noFail).1.results.map (fun o => o.source) =
      ([⟨"/s/x.txt", "/d/x.txt", .moved⟩,
        ⟨"/s/y.txt", "/d/y.txt", .moved⟩] : List Operation).reverse.map (fun o => o.dest) ∧
    (undo_last ⟨⟨["/d/x.txt"], ["/d"]⟩,
        some ⟨"t", [⟨"/s/x.txt", "/d/x.txt", .moved⟩, ⟨"/s/y.txt", "/d/y.txt", .moved⟩]⟩⟩
      noFail).2.1.ledger = none :=
  undo_last_reverse_order_and_deletes_ledger
    ⟨⟨["/d/x.txt"], ["/d"]⟩,
      some ⟨"t", [⟨"/s/x.txt", "/d/x.txt", .moved⟩, ⟨"/s/y.txt", "/d/y.txt", .moved⟩]⟩⟩
    noFail ⟨"t", [⟨"/s/x.txt", "/d/x.txt", .moved⟩, ⟨"/s/y.txt", "/d/y.txt", .moved⟩]⟩ rfl

/-- Witness for C9: with an oracle that fails the first file, `move_files`
still yields one outcome per input, in order, the first being the error. -/
theorem move_files_error_isolation_witness :
    ([⟨"/s/a.txt", "/d", .error "boom"⟩, ⟨"/s/b.txt", "/d/b.txt", .moved⟩] :
        List Operation).length = (["/s/a.txt", "/s/b.txt"] : List String).length ∧
    ∀ (i : Nat) (hi : i < (["/s/a.txt", "/s/b.txt"] : List String).length)
      (hri : i < ([⟨"/s/a.txt", "/d", .error "boom"⟩,
        ⟨"/s/b.txt", "/d/b.txt", .moved⟩] : List Operation).length),
      (([⟨"/s/a.txt", "/d", .error "boom"⟩, ⟨"/s/b.txt", "/d/b.txt", .moved⟩] :
          List Operation).get ⟨i, hri⟩).source =
        (["/s/a.txt", "/s/b.txt"] : List String).get ⟨i, hi⟩ ∧
      ∀ msg, (fun s => if s = "/s/a.txt" then some "boom" else none)
          ((["/s/a.txt", "/s/b.txt"] : List String).get ⟨i, hi⟩) = some msg →
        (([⟨"/s/a.txt", "/d", .error "boom"⟩, ⟨"/s/b.txt", "/d/b.txt", .moved⟩] :
            List Operation).get ⟨i, hri⟩).action = .error msg :=
  move_files_error_isolation ⟨["/s/a.txt", "/s/b.txt"], []⟩ ["/s/a.txt", "/s/b.txt"] "/d"
    (fun s => if s = "/s/a.txt" then some "boom" else none)
    [⟨"/s/a.txt", "/d", .error "boom"⟩, ⟨"/s/b.txt", "/d/b.txt", .moved⟩]
    ⟨["/d/b.txt", "/s/a.txt"], ["/d"]⟩ [(1, 2), (2, 2)] (by rfl)

/-- Claim C2, counterexample: a dry run is not free of filesystem mutation —
`dest_dir.mkdir(parents=True, exist_ok=True)` runs before the `dry_run`
branch, so a dry run against a missing destination creates that directory. -/
theorem dry_run_mutates_fs_cex :
    (move_files ⟨["/src/a.txt"], ["/src"]⟩ ["/src/a.txt"] "/dest" true false noFail).2.1 ≠
      (⟨["/src/a.txt"], ["/src"]⟩ : FS) := by decide

/-- Claim C2 (amended): a dry run never changes the set of files (no file is
moved), every outcome has action `would_move`, and running it again on the
resulting filesystem state returns the identical outcome list, final state
and progress events; the only mutation is creating the destination
directory if it was missing. -/
theorem dry_run_no_moves_and_repeatable
    (fs : FS) (files : List String) (destination : String)
    (moveFail : String → Option String) (results : List Operation) (fs' : FS)
    (evs : List (Nat × Nat))
    (hrun : move_files fs files destination true false moveFail = (.ok results, fs', evs)) :
    fs'.files = fs.files ∧ (∀ r ∈ results, r.action = .would_move) ∧
    move_files fs' files destination true false moveFail = (.ok results, fs', evs) := by
  have hmf : move_files fs files destination true false moveFail =
      (.ok (moveLoop destination true moveFail files.length files (mkdirAdd fs destination) 0).1,
       (moveLoop destination true moveFail files.length files (mkdirAdd fs destination) 0).2.1,
       (moveLoop destination true moveFail files.length files (mkdirAdd fs destination) 0).2.2) :=
    rfl
  rw [hmf] at hrun
  obtain ⟨h1, h2, h3⟩ : (moveLoop destination true moveFail files.length files
      (mkdirAdd fs destination) 0).1 = results ∧
      (moveLoop destination true moveFail files.length files (mkdirAdd fs destination) 0).2.1 =
        fs' ∧
      (moveLoop destination true moveFail files.length files (mkdirAdd fs destination) 0).2.2 =
        evs := by
    injection hrun with ha hb
    injection hb with hb hc
    exact ⟨Except.ok.inj ha, hb, hc⟩
  have hdry := moveLoop_dry_run destination moveFail files.length files (mkdirAdd fs destination) 0
  subst h1
  subst h3
  have hfs' : fs' = mkdirAdd fs destination := by rw [← h2, hdry.1]
  refine ⟨by rw [hfs']; rfl, hdry.2, ?_⟩
  rw [hfs']
  have hmf2 : move_files (mkdirAdd fs destination) files destination true false moveFail =
      (.ok (moveLoop destination true moveFail files.length files
        (mkdirAdd (mkdirAdd fs destination) destination) 0).1,
       (moveLoop destination true moveFail files.length files
        (mkdirAdd (mkdirAdd fs destination) destination) 0).2.1,
       (moveLoop destination true moveFail files.length files
        (mkdirAdd (mkdirAdd fs destination) destination) 0).2.2) := rfl
  rw [hmf2, mkdirAdd_idem, hdry.1]

/-- Witness for C2 (amended): a concrete dry run moves nothing, reports
`would_move`, and is repeatable on the resulting state. -/
theorem dry_run_no_moves_and_repeatable_witness :
    (⟨["/src/a.txt"], ["/dest", "/src"]⟩ : FS).files =
      (⟨["/src/a.txt"], ["/src"]⟩ : FS).files ∧
    (∀ r ∈ ([⟨"/src/a.txt", "/dest/a.txt", .would_move⟩] : List Operation),
      r.action = .would_move) ∧
    move_files ⟨["/src/a.txt"], ["/dest", "/src"]⟩ ["/src/a.txt"] "/dest" true false noFail =
      (.ok [⟨"/src/a.txt", "/dest/a.txt", .would_move⟩],
        ⟨["/src/a.txt"], ["/dest", "/src"]⟩, [(1, 1)]) :=
  dry_run_no_moves_and_repeatable ⟨["/src/a.txt"], ["/src"]⟩ ["/src/a.txt"] "/dest" noFail
    [⟨"/src/a.txt", "/dest/a.txt", .would_move⟩] ⟨["/src/a.txt"], ["/dest", "/src"]⟩
    [(1, 1)] (by rfl)

/-- Claim C4, counterexample: a real execution in which no file was moved
(here: the only move raises) does not persist any record of the batch — the
previous ledger entry survives untouched, so not every real execution saves
an undo record. -/
theorem no_record_saved_without_moved_cex :
    (run_move_worker ⟨⟨["/src/a.txt"], ["/src"]⟩, some ⟨"old", []⟩⟩ ["/src/a.txt"] "/dest"
      false false (fun _ => some "Permission denied") "t1").1 =
      .ok [⟨"/src/a.txt", "/dest", .error "Permission denied"⟩] ∧
    (run_move_worker ⟨⟨["/src/a.txt"], ["/src"]⟩, some ⟨"old", []⟩⟩ ["/src/a.txt"] "/dest"
      false false (fun _ => some "Permission denied") "t1").2.1.ledger =
      some ⟨"old", []⟩ :=
  ⟨rfl, rfl⟩

/-- Claim C4 (amended): after a real execution the worker persists a record
holding all of the batch's outcome entries, overwriting any prior record —
but only when at least one outcome is `moved`; otherwise the ledger is left
exactly as it was. -/
theorem run_move_worker_ledger_spec
    (st : AppState) (matched : List String) (destination : String)
    (moveFail : String → Option String) (timestamp : String)
    (results : List Operation) (st' : AppState) (evs : List (Nat × Nat))
    (hrun : run_move_worker st matched destination false false moveFail timestamp =
      (.ok results, st', evs)) :
    (results.any (fun r => r.action == .moved) = true →
      st'.ledger = some ⟨timestamp, results⟩) ∧
    (results.any (fun r => r.action == .moved) = false → st'.ledger = st.ledger) := by
  have hrw : run_move_worker st matched destination false false moveFail timestamp =
      (.ok (moveLoop destination false moveFail matched.length matched
          (mkdirAdd st.fs destination) 0).1,
        ⟨(moveLoop destination false moveFail matched.length matched
          (mkdirAdd st.fs destination) 0).2.1,
         if (moveLoop destination false moveFail matched.length matched
            (mkdirAdd st.fs destination) 0).1.any (fun r => r.action == .moved)
         then some ⟨timestamp, (moveLoop destination false moveFail matched.length matched
            (mkdirAdd st.fs destination) 0).1⟩
         else st.ledger⟩,
        (moveLoop destination false moveFail matched.length matched
          (mkdirAdd st.fs destination) 0).2.2) := rfl
  rw [hrw] at hrun
  obtain ⟨h1, h2, h3⟩ : (moveLoop destination false moveFail matched.length matched
      (mkdirAdd st.fs destination) 0).1 = results ∧
      (⟨(moveLoop destination false moveFail matched.length matched
          (mkdirAdd st.fs destination) 0).2.1,
        if (moveLoop destination false moveFail matched.length matched
            (mkdirAdd st.fs destination) 0).1.any (fun r => r.action == .moved)
        then some ⟨timestamp, (moveLoop destination false moveFail matched.length matched
            (mkdirAdd st.fs destination) 0).1⟩
        else st.ledger⟩ : AppState) = st' ∧
      (moveLoop destination false moveFail matched.length matched
        (mkdirAdd st.fs destination) 0).2.2 = evs := by
    injection hrun with ha hb
    injection hb with hb hc
    exact ⟨Except.ok.inj ha, hb, hc⟩
  subst h1
  subst h2
  constructor
  · intro hany
    simp only [hany, if_true]
  · intro hany
    simp only [hany, Bool.false_eq_true, if_false]

/-- Witness for C4 (amended): a concrete real execution with one moved file
persists the full batch under the given timestamp; one with no moved file
leaves the ledger unchanged. -/
theorem run_move_worker_ledger_spec_witness :
    (([⟨"/src/a.txt", "/dest/a.txt", .moved⟩] : List Operation).any
        (fun r => r.action == .moved) = true →
      (⟨⟨["/dest/a.txt"], ["/dest", "/src"]⟩,
        some ⟨"t2", [⟨"/src/a.txt", "/dest/a.txt", .moved⟩]⟩⟩ : AppState).ledger =
        some ⟨"t2", [⟨"/src/a.txt", "/dest/a.txt", .moved⟩]⟩) ∧
    (([⟨"/src/a.txt", "/dest/a.txt", .moved⟩] : List Operation).any
        (fun r => r.action == .moved) = false →
      (⟨⟨["/dest/a.txt"], ["/dest", "/src"]⟩,
        some ⟨"t2", [⟨"/src/a.txt", "/dest/a.txt", .moved⟩]⟩⟩ : AppState).ledger =
        (⟨⟨["/src/a.txt"], ["/src"]⟩, none⟩ : AppState).ledger) :=
  run_move_worker_ledger_spec ⟨⟨["/src/a.txt"], ["/src"]⟩, none⟩ ["/src/a.txt"] "/dest"
    noFail "t2" [⟨"/src/a.txt", "/dest/a.txt", .moved⟩]
    ⟨⟨["/dest/a.txt"], ["/dest", "/src"]⟩,
      some ⟨"t2", [⟨"/src/a.txt", "/dest/a.txt", .moved⟩]⟩⟩ [(1, 1)] (by rfl)

/-- Claim C5 (confirmed): `_unique_dest(dir, f)` returns `dir/f` unchanged
when that path does not exist; otherwise it returns
`dir/"{stem} ({n}){ext}"` for the smallest positive `n` whose candidate path
does not exist, probing `n = 1, 2, 3, ...` in order. -/
theorem unique_dest_collision_resolution (fs : FS) (dest_dir filename : String) :
    (pathExists fs (dest_dir ++ "/" ++ filename) = false →
      unique_dest fs dest_dir filename = dest_dir ++ "/" ++ filename) ∧
    (pathExists fs (dest_dir ++ "/" ++ filename) = true →
      ∃ n, 1 ≤ n ∧
        unique_dest fs dest_dir filename =
          candPath dest_dir (splitExt filename).1 (splitExt filename).2 n ∧
        pathExists fs (candPath dest_dir (splitExt filename).1 (splitExt filename).2 n) =
          false ∧
        ∀ m, 1 ≤ m → m < n →
          pathExists fs (candPath dest_dir (splitExt filename).1 (splitExt filename).2 m) =
            true) :=
  unique_dest_spec fs dest_dir filename

/-- Witness for C5: with `/d/a.txt` and `/d/a (1).txt` both present, the
collision branch applies and yields the least free counter. -/
theorem unique_dest_collision_resolution_witness :
    ∃ n, 1 ≤ n ∧
      unique_dest ⟨["/d/a.txt", "/d/a (1).txt"], ["/d"]⟩ "/d" "a.txt" =
        candPath "/d" (splitExt "a.txt").1 (splitExt "a.txt").2 n ∧
      pathExists ⟨["/d/a.txt", "/d/a (1).txt"], ["/d"]⟩
        (candPath "/d" (splitExt "a.txt").1 (splitExt "a.txt").2 n) = false ∧
      ∀ m, 1 ≤ m → m < n →
        pathExists ⟨["/d/a.txt", "/d/a (1).txt"], ["/d"]⟩
          (candPath "/d" (splitExt "a.txt").1 (splitExt "a.txt").2 m) = true :=
  (unique_dest_collision_resolution ⟨["/d/a.txt", "/d/a (1).txt"], ["/d"]⟩ "/d" "a.txt").2
    (by decide)

theorem strLower_eq_empty_iff (s : String) : strLower s = "" ↔ s = "" := by
  constructor
  · intro h
    have hd := congrArg String.data h
    have hmap : s.data.map Char.toLower = [] := hd
    exact String.ext (List.map_eq_nil_iff.mp hmap)
  · rintro rfl
    rfl

/-- Claim C7 (confirmed): with the date filter disabled, the start and end
date fields have no influence on the matcher's output. -/
theorem get_matched_files_date_noninterference (org : Org)
    (hoff : org.date_filter_enabled = false) (s₁ e₁ s₂ e₂ : Option Int) :
    get_matched_files { org with start_date := s₁, end_date := e₁ } =
      get_matched_files { org with start_date := s₂, end_date := e₂ } := by
  unfold get_matched_files entryMatches dateOk
  simp [hoff]

/-- Witness for C7: wildly different date windows give the same matches once
the filter is off. -/
theorem get_matched_files_date_noninterference_witness :
    get_matched_files { (⟨true, [⟨"invoice_jan.pdf", false, some 100⟩], ["invoice"],
        false, none, none⟩ : Org) with start_date := some 0, end_date := some 1 } =
      get_matched_files { (⟨true, [⟨"invoice_jan.pdf", false, some 100⟩], ["invoice"],
        false, none, none⟩ : Org) with start_date := some 999, end_date := none } :=
  get_matched_files_date_noninterference
    ⟨true, [⟨"invoice_jan.pdf", false, some 100⟩], ["invoice"], false, none, none⟩
    rfl (some 0) (some 1) (some 999) none

/-- Claim C6 (confirmed): among the source directory's non-directory entries
with readable metadata that pass the date window, exactly those whose
lowercased name contains some non-empty keyword (compared lowercased) are
matched; an empty keyword set matches nothing at all. -/
theorem get_matched_files_keyword_spec (org : Org) :
    (org.keywords = [] → get_matched_files org = []) ∧
    ∀ p ∈ org.entries, org.source_is_dir = true → p.isDir = false →
      ∀ t : Int, p.mtime = some t → dateOk org t = true →
      (p ∈ get_matched_files org ↔
        ∃ kw ∈ org.keywords, kw ≠ "" ∧
          hasSub (strLower kw).data (strLower p.name).data = true) := by
  constructor
  · intro hkw
    unfold get_matched_files
    cases hdir : org.source_is_dir
    · simp
    · simp only [if_true]
      apply List.filter_eq_nil_iff.mpr
      intro a _
      simp only [entryMatches, hkw, List.map_nil, List.any_nil, Bool.and_false, Bool.not_eq_true]
      cases a.isDir
      · simp only [Bool.false_eq_true, if_false]
        cases a.mtime <;> rfl
      · rfl
  · intro p hp hdir hdirp t hmt hdate
    unfold get_matched_files
    simp only [hdir, if_true, List.mem_filter, hp, true_and]
    unfold entryMatches
    rw [hdirp, hmt]
    simp only [Bool.false_eq_true, if_false, hdate, Bool.true_and]
    rw [List.any_eq_true]
    constructor
    · rintro ⟨x, hx, hpred⟩
      obtain ⟨kw, hkw, rfl⟩ := List.mem_map.mp hx
      rw [Bool.and_eq_true] at hpred
      refine ⟨kw, hkw, ?_, hpred.2⟩
      intro hkweq
      have : strLower kw = "" := (strLower_eq_empty_iff kw).mpr hkweq
      rw [this] at hpred
      exact absurd rfl (bne_iff_ne.mp hpred.1)
    · rintro ⟨kw, hkw, hne, hsub⟩
      refine ⟨strLower kw, List.mem_map.mpr ⟨kw, hkw, rfl⟩, ?_⟩
      rw [Bool.and_eq_true]
      refine ⟨bne_iff_ne.mpr ?_, hsub⟩
      intro h
      exact hne ((strLower_eq_empty_iff kw).mp h)

/-- Witness for C6: a file whose name contains the keyword in different case
is matched when the keyword set holds the upper-case variant. -/
theorem get_matched_files_keyword_spec_witness :
    (⟨"Invoice_Jan.pdf", false, some 100⟩ : DirEntry) ∈
      get_matched_files ⟨true, [⟨"Invoice_Jan.pdf", false, some 100⟩], ["INVOICE"],
        false, none, none⟩ :=
  ((get_matched_files_keyword_spec ⟨true, [⟨"Invoice_Jan.pdf", false, some 100⟩],
      ["INVOICE"], false, none, none⟩).2 ⟨"Invoice_Jan.pdf", false, some 100⟩
    (by decide) rfl rfl 100 rfl (by decide)).mpr
    ⟨"INVOICE", by decide, by decide, by decide⟩

/-- Claim C3: the claimed behavior fails on the code.  An error entry records
`str(destination)` — the destination directory — as its `dest` (line 137),
and that directory does exist at undo time (mkdir created it), so `undo_last`
does not record `skipped_not_found`: it moves the destination directory
itself to a collision-resolved variant of the failed file's original path
and records `restored`.  Here `/dest` (a directory) is relocated to
`/src/b (1).txt` even though `/src/b.txt` was never moved. -/
theorem undo_error_entry_moves_destination_dir :
    (undo_last ⟨⟨["/src/b.txt"], ["/src", "/dest"]⟩,
        some ⟨"t0", [⟨"/src/b.txt", "/dest", .error "Permission denied"⟩]⟩⟩
      noFail).1.results = [⟨"/dest", "/src/b (1).txt", .restored⟩] ∧
    (undo_last ⟨⟨["/src/b.txt"], ["/src", "/dest"]⟩,
        some ⟨"t0", [⟨"/src/b.txt", "/dest", .error "Permission denied"⟩]⟩⟩
      noFail).2.1.fs = ⟨["/src/b.txt"], ["/src/b (1).txt", "/src"]⟩ :=
  ⟨rfl, rfl⟩

/-- Claim C1, counterexample: in a mixed batch (first file moved, second
file's move raised) the moved file satisfies the claim's provisos at undo
start — its original slot is free and it still sits at its recorded dest —
yet undo does not restore it: the error entry is processed first (reverse
order), relocates the destination directory, and the moved entry is then
`skipped_not_found`; `/src/a.txt` is absent from the final file set. -/
theorem roundtrip_mixed_batch_cex :
    (run_move_worker ⟨⟨["/src/a.txt", "/src/b.txt"], ["/src"]⟩, none⟩
        ["/src/a.txt", "/src/b.txt"] "/dest" false false
        (fun s => if s = "/src/b.txt" then some "Permission denied" else none) "t0").1 =
      .ok [⟨"/src/a.txt", "/dest/a.txt", .moved⟩,
        ⟨"/src/b.txt", "/dest", .error "Permission denied"⟩] ∧
    pathExists (run_move_worker ⟨⟨["/src/a.txt", "/src/b.txt"], ["/src"]⟩, none⟩
        ["/src/a.txt", "/src/b.txt"] "/dest" false false
        (fun s => if s = "/src/b.txt" then some "Permission denied" else none) "t0").2.1.fs
      "/src/a.txt" = false ∧
    pathExists (run_move_worker ⟨⟨["/src/a.txt", "/src/b.txt"], ["/src"]⟩, none⟩
        ["/src/a.txt", "/src/b.txt"] "/dest" false false
        (fun s => if s = "/src/b.txt" then some "Permission denied" else none) "t0").2.1.fs
      "/dest/a.txt" = true ∧
    (undo_last (run_move_worker ⟨⟨["/src/a.txt", "/src/b.txt"], ["/src"]⟩, none⟩
        ["/src/a.txt", "/src/b.txt"] "/dest" false false
        (fun s => if s = "/src/b.txt" then some "Permission denied" else none) "t0").2.1
      noFail).1.results =
      [⟨"/dest", "/src/b (1).txt", .restored⟩,
       ⟨"/dest/a.txt", "/src/a.txt", .skipped_not_found⟩] ∧
    (undo_last (run_move_worker ⟨⟨["/src/a.txt", "/src/b.txt"], ["/src"]⟩, none⟩
        ["/src/a.txt", "/src/b.txt"] "/dest" false false
        (fun s => if s = "/src/b.txt" then some "Permission denied" else none) "t0").2.1
      noFail).2.1.fs.files = ["/src/b (1).txt/a.txt", "/src/b.txt"] :=
  ⟨rfl, rfl, rfl, rfl, rfl⟩

/-- Claim C1 (amended): a real execution over distinct existing well-formed
file paths (none of them a directory), in which every outcome is `moved`,
followed immediately by `undo_last`, restores the file set exactly up to
order — in particular every moved file is back at its original path. -/
theorem move_files_then_undo_restores
    (fs0 : FS) (L : Option UndoRecord) (files : List String)
    (destination timestamp : String)
    (results : List Operation) (st1 : AppState) (evs : List (Nat × Nat))
    (hnodup : fs0.files.Nodup)
    (hwf : ∀ f ∈ files, WfPath f ∧ (mkdirAdd fs0 destination).dirs.contains f = false)
    (hex : ∀ f ∈ files, f ∈ fs0.files)
    (hne : files ≠ [])
    (hrun : run_move_worker ⟨fs0, L⟩ files destination false false noFail timestamp =
      (.ok results, st1, evs))
    (hmoved : ∀ r ∈ results, r.action = .moved) :
    (undo_last st1 noFail).2.1.fs.files.Perm fs0.files ∧
    ∀ f ∈ files, f ∈ (undo_last st1 noFail).2.1.fs.files := by
  have hrw : run_move_worker ⟨fs0, L⟩ files destination false false noFail timestamp =
      (.ok (moveLoop destination false noFail files.length files (mkdirAdd fs0 destination) 0).1,
        ⟨(moveLoop destination false noFail files.length files (mkdirAdd fs0 destination) 0).2.1,
         if (moveLoop destination false noFail files.length files
            (mkdirAdd fs0 destination) 0).1.any (fun r => r.action == .moved)
         then some ⟨timestamp, (moveLoop destination false noFail files.length files
            (mkdirAdd fs0 destination) 0).1⟩
         else L⟩,
        (moveLoop destination false noFail files.length files
          (mkdirAdd fs0 destination) 0).2.2) := rfl
  rw [hrw] at hrun
  obtain ⟨h1, h2, h3⟩ : (moveLoop destination false noFail files.length files
      (mkdirAdd fs0 destination) 0).1 = results ∧
      (⟨(moveLoop destination false noFail files.length files
          (mkdirAdd fs0 destination) 0).2.1,
        if (moveLoop destination false noFail files.length files
            (mkdirAdd fs0 destination) 0).1.any (fun r => r.action == .moved)
        then some ⟨timestamp, (moveLoop destination false noFail files.length files
            (mkdirAdd fs0 destination) 0).1⟩
        else L⟩ : AppState) = st1 ∧
      (moveLoop destination false noFail files.length files
        (mkdirAdd fs0 destination) 0).2.2 = evs := by
    injection hrun with ha hb
    injection hb with hb hc
    exact ⟨Except.ok.inj ha, hb, hc⟩
  subst h1
  have hany : (moveLoop destination false noFail files.length files
      (mkdirAdd fs0 destination) 0).1.any (fun r => r.action == .moved) = true := by
    cases hL : (moveLoop destination false noFail files.length files
        (mkdirAdd fs0 destination) 0).1 with
    | nil =>
      exfalso
      have hlen := (moveLoop_sources_actions destination false noFail files.length files
        (mkdirAdd fs0 destination) 0).1
      rw [hL] at hlen
      exact hne (List.length_eq_zero.mp hlen.symm)
    | cons a t =>
      have ha : a.action = .moved := hmoved a (by rw [hL]; exact List.mem_cons_self _ _)
      simp [List.any_cons, ha]
  simp only [hany, if_true] at h2
  subst h2
  have hul : undo_last ⟨(moveLoop destination false noFail files.length files
        (mkdirAdd fs0 destination) 0).2.1,
      some ⟨timestamp, (moveLoop destination false noFail files.length files
        (mkdirAdd fs0 destination) 0).1⟩⟩ noFail =
      (⟨true, none, (undoLoop noFail (moveLoop destination false noFail files.length files
          (mkdirAdd fs0 destination) 0).1.length
        (moveLoop destination false noFail files.length files
          (mkdirAdd fs0 destination) 0).1.reverse
        (moveLoop destination false noFail files.length files
          (mkdirAdd fs0 destination) 0).2.1 0).1⟩,
       ⟨(undoLoop noFail (moveLoop destination false noFail files.length files
          (mkdirAdd fs0 destination) 0).1.length
        (moveLoop destination false noFail files.length files
          (mkdirAdd fs0 destination) 0).1.reverse
        (moveLoop destination false noFail files.length files
          (mkdirAdd fs0 destination) 0).2.1 0).2.1, none⟩,
       (undoLoop noFail (moveLoop destination false noFail files.length files
          (mkdirAdd fs0 destination) 0).1.length
        (moveLoop destination false noFail files.length files
          (mkdirAdd fs0 destination) 0).1.reverse
        (moveLoop destination false noFail files.length files
          (mkdirAdd fs0 destination) 0).2.1 0).2.2) := rfl
  rw [hul]
  simp only [undoLoop_fs_eq]
  have haux := moveLoop_undo_aux destination files.length files (mkdirAdd fs0 destination) 0
    (moveLoop destination false noFail files.length files (mkdirAdd fs0 destination) 0).1
    (moveLoop destination false noFail files.length files (mkdirAdd fs0 destination) 0).2.1
    (moveLoop destination false noFail files.length files (mkdirAdd fs0 destination) 0).2.2
    hnodup hwf rfl hmoved
    (moveLoop destination false noFail files.length files (mkdirAdd fs0 destination) 0).2.1
    (List.Perm.refl _) rfl
  refine ⟨haux.1, ?_⟩
  intro f hf
  exact haux.1.mem_iff.mpr (hex f hf)

/-- Witness for C1 (amended): one existing file is moved for real and then
undone; the original file set is restored and the file is back at its
original path. -/
theorem move_files_then_undo_restores_witness :
    (undo_last ⟨⟨["/dest/a.txt"], ["/dest", "/src"]⟩,
        some ⟨"t2", [⟨"/src/a.txt", "/dest/a.txt", .moved⟩]⟩⟩ noFail).2.1.fs.files.Perm
      (⟨["/src/a.txt"], ["/src"]⟩ : FS).files ∧
    ∀ f ∈ (["/src/a.txt"] : List String),
      f ∈ (undo_last ⟨⟨["/dest/a.txt"], ["/dest", "/src"]⟩,
        some ⟨"t2", [⟨"/src/a.txt", "/dest/a.txt", .moved⟩]⟩⟩ noFail).2.1.fs.files :=
  move_files_then_undo_restores ⟨["/src/a.txt"], ["/src"]⟩ none ["/src/a.txt"] "/dest" "t2"
    [⟨"/src/a.txt", "/dest/a.txt", .moved⟩]
    ⟨⟨["/dest/a.txt"], ["/dest", "/src"]⟩,
      some ⟨"t2", [⟨"/src/a.txt", "/dest/a.txt", .moved⟩]⟩⟩
    [(1, 1)] (by decide)
    (by
      intro f hf
      rw [List.mem_singleton] at hf
      subst hf
      exact ⟨⟨"/src", "a.txt", rfl, by decide, by decide⟩, by decide⟩)
    (by decide) (by decide) (by rfl) (by decide)
